import Mathlib

/-!
Shallow embedding of `src/NC/nc.py`, a length-prefixed TCP remote-shell tool.

Modelling conventions:
* Python `bytes` values are `List Nat` (each element a byte value, reduced
  mod 256 where it matters); Python `str` values are `List Char`.
* The socket, the filesystem and the subprocess machinery are outside the
  program text, so they appear as explicit parameters: a socket read trace
  `List (List Nat)` (the successive return values of `sock.recv`, an
  exhausted trace reading as `b''`, i.e. a closed peer), and an `OsEnv`
  record of oracles for `os.chdir`/`os.getcwd`, the subprocess output and
  `bytes.decode`.
* Fallible Python operations (a `struct.error`, an uncaught decode error)
  are `Option`, `none` being a raised exception that ends the session.
* Loops that the source bounds by a byte count are written with an explicit
  fuel argument large enough to cover every iteration the source performs;
  the sole behavioral gap is `buf_size = 0`, where the source loops forever
  and the model stops, so theorems about the loop assume `0 < bufSize`.
-/

/-- Whitespace test used by Python `str.strip()` (the ASCII whitespace
characters; the full Unicode set of Python is irrelevant to the claims). -/
def pyIsSpace (c : Char) : Bool :=
  c = ' ' || c = '\t' || c = '\n' || c = '\r' || c = '\x0b' || c = '\x0c'

/-- Python `str.strip()`: drop leading and trailing whitespace. -/
def pyStrip (s : List Char) : List Char :=
  ((s.dropWhile pyIsSpace).reverse.dropWhile pyIsSpace).reverse

/-- Python `str.lower()`. -/
def pyLower (s : List Char) : List Char :=
  s.map Char.toLower

/-- UTF-8 encoding of one character (`str.encode("utf-8")`, per scalar). -/
def utf8Char (c : Char) : List Nat :=
  let n := c.toNat
  if n < 0x80 then [n]
  else if n < 0x800 then [0xC0 + n / 64, 0x80 + n % 64]
  else if n < 0x10000 then
    [0xE0 + n / 4096, 0x80 + (n / 64) % 64, 0x80 + n % 64]
  else
    [0xF0 + n / 262144, 0x80 + (n / 4096) % 64, 0x80 + (n / 64) % 64, 0x80 + n % 64]

/-- UTF-8 encoding of a string (`str.encode("utf-8")`). -/
def utf8 (s : List Char) : List Nat :=
  (s.map utf8Char).flatten

/-- Strict UTF-8 decoding (`bytes.decode("utf-8")`), fuel-bounded; one unit
of fuel is spent per decoded character, so `l.length` fuel always suffices.
Rejects truncated sequences, stray continuation bytes, overlong forms,
surrogates and values above U+10FFFF, as CPython's strict codec does. -/
def utf8DecodeF : Nat → List Nat → Option (List Char)
  | _, [] => some []
  | 0, _ :: _ => none
  | fuel + 1, b0 :: rest =>
    if b0 < 0x80 then
      (utf8DecodeF fuel rest).map (fun s => Char.ofNat b0 :: s)
    else if b0 < 0xC2 then none
    else if b0 < 0xE0 then
      match rest with
      | b1 :: rest1 =>
        if 0x80 ≤ b1 ∧ b1 < 0xC0 then
          (utf8DecodeF fuel rest1).map
            (fun s => Char.ofNat ((b0 - 0xC0) * 64 + (b1 - 0x80)) :: s)
        else none
      | [] => none
    else if b0 < 0xF0 then
      match rest with
      | b1 :: b2 :: rest2 =>
        if (if b0 = 0xE0 then 0xA0 else 0x80) ≤ b1 ∧
            b1 < (if b0 = 0xED then 0xA0 else 0xC0) ∧
            0x80 ≤ b2 ∧ b2 < 0xC0 then
          (utf8DecodeF fuel rest2).map
            (fun s => Char.ofNat ((b0 - 0xE0) * 4096 + (b1 - 0x80) * 64 + (b2 - 0x80)) :: s)
        else none
      | _ => none
    else if b0 < 0xF5 then
      match rest with
      | b1 :: b2 :: b3 :: rest3 =>
        if (if b0 = 0xF0 then 0x90 else 0x80) ≤ b1 ∧
            b1 < (if b0 = 0xF4 then 0x90 else 0xC0) ∧
            0x80 ≤ b2 ∧ b2 < 0xC0 ∧ 0x80 ≤ b3 ∧ b3 < 0xC0 then
          (utf8DecodeF fuel rest3).map
            (fun s =>
              Char.ofNat ((b0 - 0xF0) * 262144 + (b1 - 0x80) * 4096 +
                (b2 - 0x80) * 64 + (b3 - 0x80)) :: s)
        else none
      | _ => none
    else none

/-- Strict UTF-8 decoding of a byte string. -/
def utf8Decode (l : List Nat) : Option (List Char) :=
  utf8DecodeF l.length l

/-- Python bytes literal `b'quit'`. -/
def quitBytes : List Nat := [113, 117, 105, 116]

/-- Model of `struct.pack('i', n)`: the 4 little-endian bytes of `n` as a
native signed 32-bit integer, i.e. of `n mod 2^32` for `n` in
`[-2^31, 2^31)`; `none` models the `struct.error` raised when `n` is out of
that range. A non-negative `n = k` is in range iff `k < 2^31` and reduces
mod `2^32` to `k` itself; a negative `n = -(k+1)` is in range iff
`k < 2^31` and reduces mod `2^32` to `4294967295 - k`. -/
def pack_i (n : Int) : Option (List Nat) :=
  match n with
  | .ofNat k =>
    if k < 2147483648 then
      some [k % 256, k / 256 % 256, k / 65536 % 256, k / 16777216 % 256]
    else none
  | .negSucc k =>
    if k < 2147483648 then
      let m := 4294967295 - k
      some [m % 256, m / 256 % 256, m / 65536 % 256, m / 16777216 % 256]
    else none

/-- Model of `struct.unpack('i', x)[0]`: `none` models the `struct.error`
raised when `x` is not exactly 4 bytes long. -/
def unpack_i (bs : List Nat) : Option Int :=
  match bs with
  | [b0, b1, b2, b3] =>
    let m := b0 % 256 + 256 * (b1 % 256) + 65536 * (b2 % 256) + 16777216 * (b3 % 256)
    some (if m < 2 ^ 31 then (m : Int) else (m : Int) - 2 ^ 32)
  | _ => none

/-- Model of `send_data(sock, data)` for a bytes argument: the sequence of
writes performed on the socket (length prefix first, then the payload).
`none` models the `struct.error` on an overlong payload. -/
def send_data (data : List Nat) : Option (List (List Nat)) :=
  match pack_i (Int.ofNat data.length) with
  | none => none
  | some hdr => some [hdr, data]

/-- Argument of `send_data` in the source: a `str` (encoded to UTF-8 before
framing) or a `bytes` value sent as-is. -/
inductive Payload where
  | text (s : List Char)
  | bytes (b : List Nat)

/-- Bytes actually framed by `send_data`: `data.encode("utf-8")` when the
argument is a `str`, the argument itself otherwise. -/
def payloadBytes : Payload → List Nat
  | .text s => utf8 s
  | .bytes b => b

/-- Model of `send_data(sock, data)` on either argument type. -/
def send_payload (p : Payload) : Option (List (List Nat)) :=
  send_data (payloadBytes p)

/-- First pending result of `sock.recv`; an exhausted trace reads as `b''`
(the peer has closed). -/
def rdHead : List (List Nat) → List Nat
  | [] => []
  | c :: _ => c

/-- Read trace remaining after one `sock.recv` call. -/
def rdTail : List (List Nat) → List (List Nat)
  | [] => []
  | _ :: r => r

/-- Loop of `recv_data`: `while recv_size < all_size: data += sock.recv(buf_size);
recv_size += buf_size`. The counter advances by `bufSize` per iteration no
matter how many bytes the read returned, exactly as in the source. Fuel
bounds the iteration count; `allSize.toNat + 1` covers every iteration the
source performs whenever `0 < bufSize`. -/
def recv_data_loop (bufSize : Nat) (allSize : Int) : Nat → Nat → List (List Nat) → List Nat
  | 0, _, _ => []
  | fuel + 1, recvSize, reads =>
    if (recvSize : Int) < allSize then
      rdHead reads ++ recv_data_loop bufSize allSize fuel (recvSize + bufSize) (rdTail reads)
    else []

/-- Model of `recv_data(sock, buf_size)` over a socket read trace: the first
entry of `reads` is what `sock.recv(4)` returned, the following entries are
what the successive `sock.recv(buf_size)` calls return. `none` models the
`struct.error` raised on a malformed length prefix. -/
def recv_data (bufSize : Nat) (reads : List (List Nat)) : Option (List Nat) :=
  match unpack_i (rdHead reads) with
  | none => none
  | some allSize => some (recv_data_loop bufSize allSize (allSize.toNat + 1) 0 (rdTail reads))

/-- Cooperative delivery trace: successive `take bufSize` slices of a byte
stream, modelling a TCP peer that always returns a full chunk when the bytes
are available. Fuel `l.length` suffices whenever `0 < bufSize`. -/
def splitChunksF : Nat → Nat → List Nat → List (List Nat)
  | 0, _, _ => []
  | fuel + 1, bufSize, l =>
    if l = [] then [] else l.take bufSize :: splitChunksF fuel bufSize (l.drop bufSize)

/-- Successive full `bufSize`-byte reads of a byte stream. -/
def splitChunks (bufSize : Nat) (l : List Nat) : List (List Nat) :=
  splitChunksF l.length bufSize l

/-- Oracles for the operating-system facilities `exec_cmd` touches. `chdirOk
cwd target` says whether `os.chdir(target)` succeeds from working directory
`cwd`; `chdirResolve cwd target` is the `os.getcwd()` value after a
successful change; `subprocOut command` is the concatenated
stdout-then-stderr byte output of the shell subprocess; `decodeBytes enc bs`
is `bs.decode(enc)`, `none` meaning a raised `UnicodeDecodeError`. -/
structure OsEnv where
  chdirOk : List Char → List Char → Bool
  chdirResolve : List Char → List Char → List Char
  subprocOut : List Char → List Nat
  decodeBytes : String → List Nat → Option (List Char)

/-- Outcome of one `exec_cmd` call: the returned (stripped) text, the
working directory afterwards, and whether a shell subprocess was spawned. -/
structure ExecResult where
  output : List Char
  cwd : List Char
  spawned : Bool
deriving DecidableEq, Repr

/-- Reassignment of `code_flag` in the `except` branch of `exec_cmd`:
`gbk` and `utf-8` swap, anything else is left alone. -/
def flipFlag (codeFlag : String) : String :=
  if codeFlag = "gbk" then "utf-8" else if codeFlag = "utf-8" then "gbk" else codeFlag

/-- Decode attempt sequence of `exec_cmd`: `stdout_res.decode(code_flag)`,
and on failure one retry with the swapped flag, whose own failure
propagates (`none`). -/
def decodeFallback (dec : String → List Nat → Option (List Char))
    (codeFlag : String) (bs : List Nat) : Option (List Char) :=
  match dec codeFlag bs with
  | some s => some s
  | none => dec (flipFlag codeFlag) bs

/-- Encodings attempted by `decodeFallback`, in order. -/
def decodeAttempts (dec : String → List Nat → Option (List Char))
    (codeFlag : String) (bs : List Nat) : List String :=
  match dec codeFlag bs with
  | some _ => [codeFlag]
  | none => [codeFlag, flipFlag codeFlag]

/-- Initial `code_flag` chosen in `reverse_shell`:
`"gbk" if os.name == "nt" else "utf-8"`. -/
def platformCodeFlag (isWindows : Bool) : String :=
  if isWindows then "gbk" else "utf-8"

/-- Model of `exec_cmd(command, code_flag)`. The argument is the raw frame
payload; the first line of the source decodes it as UTF-8 (`none` on
failure, an uncaught exception). A `cd`-prefixed command of length > 2
changes directory via the oracles without spawning anything; any other
command is handed to the shell, empty output is replaced by a localized
success message, and non-empty output goes through the two-encoding decode
fallback. The result is `.strip()`-ed as in the source's final line. -/
def exec_cmd (env : OsEnv) (cwd : List Char) (payload : List Nat)
    (codeFlag : String) : Option ExecResult :=
  match utf8Decode payload with
  | none => none
  | some command =>
    if command.take 2 = "cd".data ∧ 2 < command.length then
      let target := command.drop 3
      if env.chdirOk cwd target then
        let newCwd := env.chdirResolve cwd target
        some ⟨pyStrip ("切换到 ".data ++ newCwd ++ " 路径下".data), newCwd, false⟩
      else
        some ⟨pyStrip ("系统找不到指定的路径: ".data ++ target), cwd, false⟩
    else
      let out := env.subprocOut command
      if out = [] then
        some ⟨pyStrip (command ++ " 执行成功".data), cwd, true⟩
      else
        match decodeFallback env.decodeBytes codeFlag out with
        | none => none
        | some txt => some ⟨pyStrip txt, cwd, true⟩

/-- Action taken by one iteration of the Controller loop in `listen`. -/
inductive CtrlStep where
  | reprompt
  | sendAndClose (wire : List (List Nat))
  | sendAndAwait (wire : List (List Nat))
deriving DecidableEq, Repr

/-- One iteration of the Controller loop in `listen`, as a function of the
raw operator input line: strip it; empty input re-prompts without touching
the socket; otherwise the stripped text is framed and sent, and the loop
either closes the connection and returns (input lowercasing to `"quit"`) or
blocks awaiting a response frame. `none` models a raised exception. -/
def listen_step (rawInput : List Char) : Option CtrlStep :=
  if pyStrip rawInput = [] then some .reprompt
  else
    match send_data (utf8 (pyStrip rawInput)) with
    | none => none
    | some wire =>
      if pyLower (pyStrip rawInput) = "quit".data then some (.sendAndClose wire)
      else some (.sendAndAwait wire)

/-- Action taken by one iteration of the Agent loop in `reverse_shell`. -/
inductive AgentStep where
  | exitClose
  | replied (r : ExecResult) (wire : List (List Nat))
deriving DecidableEq, Repr

/-- One iteration of the Agent loop in `reverse_shell`, as a function of the
received frame payload: a payload equal to `b'quit'` breaks the loop (the
connection is then closed with no reply); any other payload is executed by
`exec_cmd` and the result text framed and sent back. `none` models a raised
exception. -/
def reverse_shell_step (env : OsEnv) (cwd : List Char) (codeFlag : String)
    (payload : List Nat) : Option AgentStep :=
  if payload = quitBytes then some .exitClose
  else
    match exec_cmd env cwd payload codeFlag with
    | none => none
    | some r =>
      match send_data (utf8 r.output) with
      | none => none
      | some wire => some (.replied r wire)

/-- Dropping a whitespace run commutes with appending a final non-space
element. -/
theorem dropWhile_append_single {p : Char → Bool} {a : Char} (ha : p a = false)
    (xs : List Char) :
    (xs ++ [a]).dropWhile p = xs.dropWhile p ++ [a] := by
  induction xs with
  | nil => simp [List.dropWhile, ha]
  | cons x xs ih =>
    by_cases hx : p x
    · simp [List.dropWhile, hx, ih]
    · simp [List.dropWhile, hx]

/-- Stripping a string that starts and ends with non-space characters is the
identity. -/
theorem pyStrip_bracket (c a : Char) (hc : pyIsSpace c = false)
    (ha : pyIsSpace a = false) (xs : List Char) :
    pyStrip (c :: (xs ++ [a])) = c :: (xs ++ [a]) := by
  unfold pyStrip
  rw [List.dropWhile_cons_of_neg (by simp [hc])]
  rw [show (c :: (xs ++ [a])).reverse = a :: (xs.reverse ++ [c]) by simp]
  rw [List.dropWhile_cons_of_neg (by simp [ha])]
  simp

/-- Stripping a string that ends with a non-space character never empties
it. -/
theorem pyStrip_append_ne_nil {a : Char} (ha : pyIsSpace a = false)
    (xs : List Char) : pyStrip (xs ++ [a]) ≠ [] := by
  unfold pyStrip
  rw [dropWhile_append_single ha]
  rw [show (xs.dropWhile pyIsSpace ++ [a]).reverse = a :: (xs.dropWhile pyIsSpace).reverse by simp]
  rw [List.dropWhile_cons_of_neg (by simp [ha])]
  simp

/-- Evaluation of `unpack_i` on a 4-byte buffer. -/
theorem unpack_i_cons (b0 b1 b2 b3 : Nat) :
    unpack_i [b0, b1, b2, b3] =
      some (let m := b0 % 256 + 256 * (b1 % 256) + 65536 * (b2 % 256) + 16777216 * (b3 % 256)
            if m < 2 ^ 31 then (m : Int) else (m : Int) - 2 ^ 32) := rfl

/-- Packing a length below `2^31` succeeds, yields 4 bytes, and unpacking
them recovers the length. -/
theorem pack_i_nat (L : Nat) (h : L < 2 ^ 31) :
    ∃ hdr, pack_i (Int.ofNat L) = some hdr ∧ hdr.length = 4 ∧
      unpack_i hdr = some (Int.ofNat L) := by
  refine ⟨[L % 256, L / 256 % 256, L / 65536 % 256, L / 16777216 % 256], ?_, by simp, ?_⟩
  · rw [show pack_i (Int.ofNat L) =
        if L < 2147483648 then
          some [L % 256, L / 256 % 256, L / 65536 % 256, L / 16777216 % 256]
        else none from rfl]
    rw [if_pos (by omega)]
  · rw [unpack_i_cons]
    simp only []
    rw [if_pos (by omega)]
    rw [Int.ofNat_eq_coe]
    congr 1
    push_cast
    omega

/-- Unpacking any buffer that is not exactly 4 bytes long raises. -/
theorem unpack_i_none (bs : List Nat) (h : bs.length ≠ 4) : unpack_i bs = none := by
  match bs with
  | [] => rfl
  | [_] => rfl
  | [_, _] => rfl
  | [_, _, _] => rfl
  | [_, _, _, _] => simp at h
  | _ :: _ :: _ :: _ :: _ :: _ => rfl

/-- Chunking the empty stream gives no chunks, for any fuel. -/
theorem splitChunksF_nil (f b : Nat) : splitChunksF f b [] = [] := by
  cases f <;> simp [splitChunksF]

/-- Chunking is insensitive to the fuel bound once it covers the stream
length. -/
theorem splitChunksF_fuel (b : Nat) (hb : 0 < b) :
    ∀ f1 f2 (l : List Nat), l.length ≤ f1 → l.length ≤ f2 →
      splitChunksF f1 b l = splitChunksF f2 b l := by
  intro f1
  induction f1 with
  | zero =>
    intro f2 l h1 _
    have : l = [] := by
      cases l with
      | nil => rfl
      | cons x xs => simp at h1
    subst this
    rw [splitChunksF_nil, splitChunksF_nil]
  | succ f ih =>
    intro f2 l h1 h2
    by_cases hl : l = []
    · subst hl; rw [splitChunksF_nil, splitChunksF_nil]
    · have hlen : 1 ≤ l.length := by
        cases l with
        | nil => exact absurd rfl hl
        | cons x xs => simp
      obtain ⟨f2', rfl⟩ : ∃ f2', f2 = f2' + 1 := ⟨f2 - 1, by omega⟩
      simp only [splitChunksF, if_neg hl]
      congr 1
      exact ih f2' (l.drop b) (by simp; omega) (by simp; omega)

/-- Unfolding of `splitChunks` on a non-empty stream. -/
theorem splitChunks_cons (b : Nat) (hb : 0 < b) (l : List Nat) (hl : l ≠ []) :
    splitChunks b l = l.take b :: splitChunks b (l.drop b) := by
  have hlen : 1 ≤ l.length := by
    cases l with
    | nil => exact absurd rfl hl
    | cons x xs => simp
  unfold splitChunks
  obtain ⟨k, hk⟩ : ∃ k, l.length = k + 1 := ⟨l.length - 1, by omega⟩
  rw [hk]
  simp only [splitChunksF, if_neg hl]
  congr 1
  exact splitChunksF_fuel b hb k (l.drop b).length (l.drop b) (by simp; omega) le_rfl

/-- On a cooperative trace of full chunks whose chunk size divides the
payload length, the `recv_data` loop returns exactly the payload. -/
theorem recv_loop_full (bufSize : Nat) (hb : 0 < bufSize) :
    ∀ (fuel : Nat) (recvSize : Nat) (B : List Nat) (allSize : Int),
      bufSize ∣ B.length → (recvSize : Int) + B.length = allSize →
      B.length ≤ fuel * bufSize →
      recv_data_loop bufSize allSize fuel recvSize (splitChunks bufSize B) = B := by
  intro fuel
  induction fuel with
  | zero =>
    intro recvSize B allSize _ _ hle
    have : B = [] := by
      cases B with
      | nil => rfl
      | cons x xs => simp at hle
    subst this
    rfl
  | succ f ih =>
    intro recvSize B allSize hdvd hsum hle
    by_cases hB : B = []
    · subst hB
      simp only [recv_data_loop]
      rw [if_neg]
      simp at hsum
      omega
    · have hlen : 1 ≤ B.length := by
        cases B with
        | nil => exact absurd rfl hB
        | cons x xs => simp
      have hble : bufSize ≤ B.length := Nat.le_of_dvd (by omega) hdvd
      simp only [recv_data_loop]
      rw [if_pos (by omega)]
      rw [splitChunks_cons bufSize hb B hB]
      simp only [rdHead, rdTail]
      have hle' : B.length ≤ f * bufSize + bufSize := by
        rw [Nat.succ_mul] at hle; omega
      rw [ih (recvSize + bufSize) (B.drop bufSize) allSize
        (by simp; exact (Nat.dvd_sub' hdvd dvd_rfl)) (by simp; omega)
        (by simp; omega)]
      exact List.take_append_drop bufSize B

theorem utf8DecodeF_char_cons (fuel : Nat) (c : Char) (r : List Nat) :
    utf8DecodeF (fuel + 1) (utf8Char c ++ r) =
      (utf8DecodeF fuel r).map (fun s => c :: s) := by
  have hval : c.toNat < 0xd800 ∨ (0xdfff < c.toNat ∧ c.toNat < 0x110000) := c.valid
  by_cases h1 : c.toNat < 0x80
  · have he : utf8Char c = [c.toNat] := by
      unfold utf8Char; rw [if_pos h1]
    rw [he]
    simp only [List.cons_append, List.nil_append, List.append_eq, utf8DecodeF]
    rw [if_pos h1]
    simp only [Char.ofNat_toNat]
  · by_cases h2 : c.toNat < 0x800
    · have he : utf8Char c = [0xC0 + c.toNat / 64, 0x80 + c.toNat % 64] := by
        unfold utf8Char; rw [if_neg h1, if_pos h2]
      rw [he]
      simp only [List.cons_append, List.nil_append, List.append_eq, utf8DecodeF]
      rw [if_neg (by omega), if_neg (by omega), if_pos (by omega), if_pos (by omega)]
      have hv : (0xC0 + c.toNat / 64 - 0xC0) * 64 + (0x80 + c.toNat % 64 - 0x80) = c.toNat := by
        omega
      simp only [hv, Char.ofNat_toNat]
    · by_cases h3 : c.toNat < 0x10000
      · have he : utf8Char c = [0xE0 + c.toNat / 4096, 0x80 + (c.toNat / 64) % 64,
            0x80 + c.toNat % 64] := by
          unfold utf8Char; rw [if_neg h1, if_neg h2, if_pos h3]
        rw [he]
        simp only [List.cons_append, List.nil_append, List.append_eq, utf8DecodeF]
        rw [if_neg (by omega), if_neg (by omega), if_neg (by omega), if_pos (by omega),
          if_pos (by rcases hval with h | ⟨ha, hb⟩ <;> split_ifs <;> omega)]
        have hv : (0xE0 + c.toNat / 4096 - 0xE0) * 4096 +
            (0x80 + (c.toNat / 64) % 64 - 0x80) * 64 +
            (0x80 + c.toNat % 64 - 0x80) = c.toNat := by omega
        simp only [hv, Char.ofNat_toNat]
      · have h4 : c.toNat < 0x110000 := by rcases hval with h | ⟨ha, hb⟩ <;> omega
        have he : utf8Char c = [0xF0 + c.toNat / 262144, 0x80 + (c.toNat / 4096) % 64,
            0x80 + (c.toNat / 64) % 64, 0x80 + c.toNat % 64] := by
          unfold utf8Char; rw [if_neg h1, if_neg h2, if_neg h3]
        rw [he]
        simp only [List.cons_append, List.nil_append, List.append_eq, utf8DecodeF]
        rw [if_neg (by omega), if_neg (by omega), if_neg (by omega), if_neg (by omega),
          if_pos (by omega), if_pos (by split_ifs <;> omega)]
        have hv : (0xF0 + c.toNat / 262144 - 0xF0) * 262144 +
            (0x80 + (c.toNat / 4096) % 64 - 0x80) * 4096 +
            (0x80 + (c.toNat / 64) % 64 - 0x80) * 64 +
            (0x80 + c.toNat % 64 - 0x80) = c.toNat := by omega
        simp only [hv, Char.ofNat_toNat]

theorem utf8Char_length_pos (c : Char) : 1 ≤ (utf8Char c).length := by
  unfold utf8Char; dsimp only; split_ifs <;> simp

theorem utf8Char_length_le (c : Char) : (utf8Char c).length ≤ 4 := by
  unfold utf8Char; dsimp only; split_ifs <;> simp

theorem utf8_cons (c : Char) (s : List Char) :
    utf8 (c :: s) = utf8Char c ++ utf8 s := by
  simp [utf8]

theorem length_le_utf8_length (s : List Char) : s.length ≤ (utf8 s).length := by
  induction s with
  | nil => simp [utf8]
  | cons c s ih =>
    rw [utf8_cons]
    simp only [List.length_cons, List.length_append]
    have := utf8Char_length_pos c
    omega

theorem utf8_length_le (s : List Char) : (utf8 s).length ≤ 4 * s.length := by
  induction s with
  | nil => simp [utf8]
  | cons c s ih =>
    rw [utf8_cons]
    simp only [List.length_cons, List.length_append]
    have := utf8Char_length_le c
    omega

theorem utf8DecodeF_utf8 (s : List Char) :
    ∀ fuel, s.length ≤ fuel → utf8DecodeF fuel (utf8 s) = some s := by
  induction s with
  | nil => intro fuel _; simp [utf8]; cases fuel <;> rfl
  | cons c s ih =>
    intro fuel hf
    obtain ⟨f, rfl⟩ : ∃ f, fuel = f + 1 := ⟨fuel - 1, by simp at hf; omega⟩
    rw [utf8_cons, utf8DecodeF_char_cons, ih f (by simp at hf; omega)]
    rfl

theorem utf8Decode_utf8 (s : List Char) : utf8Decode (utf8 s) = some s :=
  utf8DecodeF_utf8 s (utf8 s).length (length_le_utf8_length s)

/-- Unfolding of `send_data` when packing the length succeeds. -/
theorem send_data_eq (data hdr : List Nat)
    (h : pack_i (Int.ofNat data.length) = some hdr) :
    send_data data = some [hdr, data] := by
  unfold send_data; rw [h]

/-- Unfolding of `recv_data` when the prefix parses. -/
theorem recv_data_eq (bufSize : Nat) (reads : List (List Nat)) (n : Int)
    (h : unpack_i (rdHead reads) = some n) :
    recv_data bufSize reads =
      some (recv_data_loop bufSize n (n.toNat + 1) 0 (rdTail reads)) := by
  unfold recv_data; rw [h]

/-- C1: for every byte sequence `B` and every positive chunk size that
divides `B`'s length (with the length below `2^31` so the prefix packs),
sending `B` with `send_data` and receiving the resulting wire bytes with
`recv_data` — over the cooperative trace where the prefix read returns the
4 header bytes and each chunk read returns one full chunk — reproduces `B`
exactly; the `N = 0` case is included, the zero length prefix yielding the
empty payload. -/
theorem c1_roundtrip_framing (B : List Nat) (bufSize : Nat) (hb : 0 < bufSize)
    (hdvd : bufSize ∣ B.length) (hlen : B.length < 2 ^ 31) :
    ∃ hdr, send_data B = some [hdr, B] ∧
      recv_data bufSize (hdr :: splitChunks bufSize B) = some B := by
  obtain ⟨hdr, hpack, hlen4, hunpack⟩ := pack_i_nat B.length hlen
  refine ⟨hdr, send_data_eq B hdr hpack, ?_⟩
  rw [recv_data_eq bufSize _ (Int.ofNat B.length) (by simpa [rdHead] using hunpack)]
  simp only [rdTail]
  congr 1
  have htn : (Int.ofNat B.length).toNat = B.length := by
    rw [Int.ofNat_eq_coe]; omega
  rw [htn]
  have hfuel : B.length ≤ (B.length + 1) * bufSize := by
    have h3 : B.length + 1 ≤ (B.length + 1) * bufSize :=
      Nat.le_mul_of_pos_right _ hb
    omega
  exact recv_loop_full bufSize hb (B.length + 1) 0 B (Int.ofNat B.length) hdvd
    (by rw [Int.ofNat_eq_coe]; omega) hfuel

theorem c1_witness :
    ∃ hdr, send_data [1, 2, 3, 4] = some [hdr, [1, 2, 3, 4]] ∧
      recv_data 2 (hdr :: splitChunks 2 [1, 2, 3, 4]) = some [1, 2, 3, 4] :=
  c1_roundtrip_framing [1, 2, 3, 4] 2 (by decide) (by decide) (by decide)

/-- C2 (failing input): the peer declares 2 payload bytes, the chunk size
is 2, and a single read returns only 1 byte; `recv_data` nevertheless
returns that 1-byte buffer — shorter than the declared length — because its
loop advances `recv_size += buf_size` whether or not the read was full. -/
theorem c2_short_read_returns_less :
    recv_data 2 [[2, 0, 0, 0], [5]] = some [5] ∧ ([5] : List Nat).length < 2 := by
  decide

/-- C7: `send_data` frames a payload as exactly two writes — a 4-byte
native signed 32-bit length prefix followed by the payload bytes, in that
order — and a text payload is UTF-8 encoded first. -/
theorem c7_frame_format (p : Payload) (h : (payloadBytes p).length < 2 ^ 31) :
    ∃ hdr, send_payload p = some [hdr, payloadBytes p] ∧ hdr.length = 4 ∧
      unpack_i hdr = some (Int.ofNat (payloadBytes p).length) ∧
      ∀ s, p = .text s → payloadBytes p = utf8 s := by
  obtain ⟨hdr, hpack, hlen4, hunpack⟩ := pack_i_nat (payloadBytes p).length h
  refine ⟨hdr, ?_, hlen4, hunpack, ?_⟩
  · unfold send_payload
    exact send_data_eq _ hdr hpack
  · intro s hs; rw [hs]; rfl

theorem c7_witness :
    ∃ hdr, send_payload (.text "hi".data) = some [hdr, payloadBytes (.text "hi".data)] ∧
      hdr.length = 4 ∧
      unpack_i hdr = some (Int.ofNat (payloadBytes (.text "hi".data)).length) ∧
      ∀ s, Payload.text "hi".data = .text s →
        payloadBytes (.text "hi".data) = utf8 s :=
  c7_frame_format (.text "hi".data) (by decide)

/-- C8: whenever the 4-byte length prefix cannot be obtained — the first
read returns anything other than exactly 4 bytes, e.g. a connection that
closed before the prefix arrived — `recv_data` raises a `struct.error`
instead of returning a payload, and produces no protocol-level reply. -/
theorem c8_malformed_length (bufSize : Nat) (reads : List (List Nat))
    (h : (rdHead reads).length ≠ 4) : recv_data bufSize reads = none := by
  unfold recv_data; rw [unpack_i_none _ h]

theorem c8_witness : recv_data 1024 [[]] = none :=
  c8_malformed_length 1024 [[]] (by decide)

/-- C10: a 4-byte length prefix that decodes to a negative signed 32-bit
value makes `recv_data` skip the body-reading loop entirely — the result
does not depend on any subsequent read — and return the empty byte string
without raising. -/
theorem c10_negative_length (bufSize : Nat) (hdr : List Nat)
    (rest : List (List Nat)) (n : Int) (h1 : unpack_i hdr = some n) (h2 : n < 0) :
    recv_data bufSize (hdr :: rest) = some [] := by
  rw [recv_data_eq bufSize _ n (by simpa [rdHead] using h1)]
  have hz : n.toNat = 0 := by omega
  rw [hz]
  simp only [rdTail, recv_data_loop]
  rw [if_neg (by omega)]

theorem c10_witness : recv_data 1024 [[254, 255, 255, 255], [9, 9]] = some [] :=
  c10_negative_length 1024 [254, 255, 255, 255] [[9, 9]] (-2) (by decide) (by decide)

theorem exec_cmd_subproc (env : OsEnv) (cwd : List Char) (payload : List Nat)
    (codeFlag : String) (s' : List Char)
    (hdec : utf8Decode payload = some s')
    (hnotcd : ¬(s'.take 2 = "cd".data ∧ 2 < s'.length)) :
    exec_cmd env cwd payload codeFlag =
      (if env.subprocOut s' = [] then
        some ⟨pyStrip (s' ++ " 执行成功".data), cwd, true⟩
      else
        match decodeFallback env.decodeBytes codeFlag (env.subprocOut s') with
        | none => none
        | some txt => some ⟨pyStrip txt, cwd, true⟩) := by
  simp only [exec_cmd, hdec]
  rw [if_neg hnotcd]

theorem c3_quit_symmetry :
    listen_step "quit".data =
      some (.sendAndClose [[4, 0, 0, 0], [113, 117, 105, 116]]) ∧
    ∀ (env : OsEnv) (cwd : List Char) (codeFlag : String),
      reverse_shell_step env cwd codeFlag quitBytes = some .exitClose :=
  ⟨by decide, fun _ _ _ => rfl⟩

theorem c9_quit_case_mismatch (raw : List Char) (env : OsEnv) (cwd : List Char)
    (codeFlag : String) (payload : List Nat) (s' : List Char)
    (hlow : pyLower (pyStrip raw) = "quit".data)
    (_hne : pyStrip raw ≠ "quit".data)
    (hdec : utf8Decode payload = some s')
    (hlow' : pyLower s' = "quit".data)
    (hpne : payload ≠ quitBytes) :
    (∃ hdr, listen_step raw = some (.sendAndClose [hdr, utf8 (pyStrip raw)])) ∧
    reverse_shell_step env cwd codeFlag payload ≠ some .exitClose ∧
    (∀ r, exec_cmd env cwd payload codeFlag = some r →
      r.spawned = true ∧ r.cwd = cwd) ∧
    (∀ r w, exec_cmd env cwd payload codeFlag = some r →
      send_data (utf8 r.output) = some w →
      reverse_shell_step env cwd codeFlag payload = some (.replied r w)) := by
  have hs4 : (pyStrip raw).length = 4 := by
    have h := congrArg List.length hlow
    simpa [pyLower] using h
  have hsne : pyStrip raw ≠ [] := by
    intro h; rw [h] at hs4; simp at hs4
  have hblen : (utf8 (pyStrip raw)).length < 2 ^ 31 := by
    have h1 := utf8_length_le (pyStrip raw)
    rw [hs4] at h1
    omega
  obtain ⟨hdr, hpack, _h4, _hu⟩ := pack_i_nat (utf8 (pyStrip raw)).length hblen
  have hnotcd : ¬(s'.take 2 = "cd".data ∧ 2 < s'.length) := by
    rintro ⟨hcd, _⟩
    have h2 : List.map Char.toLower (s'.take 2) = (pyLower s').take 2 :=
      List.map_take Char.toLower s' 2
    rw [hcd, hlow'] at h2
    exact absurd h2 (by decide)
  refine ⟨⟨hdr, ?_⟩, ?_, ?_, ?_⟩
  · unfold listen_step
    rw [if_neg hsne, send_data_eq _ hdr hpack]
    show (if pyLower (pyStrip raw) = "quit".data then
        some (CtrlStep.sendAndClose [hdr, utf8 (pyStrip raw)])
      else some (.sendAndAwait [hdr, utf8 (pyStrip raw)])) =
      some (.sendAndClose [hdr, utf8 (pyStrip raw)])
    rw [if_pos hlow]
  · unfold reverse_shell_step
    rw [if_neg hpne]
    cases h1 : exec_cmd env cwd payload codeFlag with
    | none => simp
    | some r =>
      cases h2 : send_data (utf8 r.output) with
      | none => simp [h2]
      | some w => simp [h2]
  · intro r hr
    rw [exec_cmd_subproc env cwd payload codeFlag s' hdec hnotcd] at hr
    by_cases hout : env.subprocOut s' = []
    · rw [if_pos hout] at hr
      simp only [Option.some.injEq] at hr
      subst hr
      exact ⟨rfl, rfl⟩
    · rw [if_neg hout] at hr
      cases h2 : decodeFallback env.decodeBytes codeFlag (env.subprocOut s') with
      | none => rw [h2] at hr; simp at hr
      | some txt =>
        rw [h2] at hr
        simp only [Option.some.injEq] at hr
        subst hr
        exact ⟨rfl, rfl⟩
  · intro r w hr hw
    unfold reverse_shell_step
    rw [if_neg hpne, hr]
    show (match send_data (utf8 r.output) with
      | none => none
      | some w' => some (AgentStep.replied r w')) = some (.replied r w)
    rw [hw]

def envC9 : OsEnv := ⟨fun _ _ => false, fun _ _ => [], fun _ => [], fun _ _ => none⟩

theorem c9_witness :
    (∃ hdr, listen_step "QUIT".data =
      some (.sendAndClose [hdr, utf8 (pyStrip "QUIT".data)])) ∧
    reverse_shell_step envC9 "/w".data "utf-8" [81, 85, 73, 84] ≠ some .exitClose ∧
    (∀ r, exec_cmd envC9 "/w".data [81, 85, 73, 84] "utf-8" = some r →
      r.spawned = true ∧ r.cwd = "/w".data) ∧
    (∀ r w, exec_cmd envC9 "/w".data [81, 85, 73, 84] "utf-8" = some r →
      send_data (utf8 r.output) = some w →
      reverse_shell_step envC9 "/w".data "utf-8" [81, 85, 73, 84] =
        some (.replied r w)) :=
  c9_quit_case_mismatch "QUIT".data envC9 "/w".data "utf-8" [81, 85, 73, 84]
    "QUIT".data (by decide) (by decide) (by decide) (by decide) (by decide)

theorem strip_chdir_msg (X : List Char) :
    pyStrip ("切换到 ".data ++ X ++ " 路径下".data) =
      "切换到 ".data ++ X ++ " 路径下".data := by
  have h := pyStrip_bracket '切' '下' (by decide) (by decide)
    ("换到 ".data ++ X ++ " 路径".data)
  have e : '切' :: (("换到 ".data ++ X ++ " 路径".data) ++ ['下']) =
      "切换到 ".data ++ X ++ " 路径下".data := by
    show '切' :: (("换到 ".data ++ X ++ " 路径".data) ++ ['下']) =
      ('切' :: "换到 ".data) ++ X ++ (" 路径".data ++ ['下'])
    simp [List.append_assoc]
  rw [e] at h
  exact h

theorem dropWhile_append_single_true {p : Char → Bool} {a : Char} (ha : p a = true)
    (xs : List Char) :
    (xs ++ [a]).dropWhile p =
      if xs.dropWhile p = [] then [] else xs.dropWhile p ++ [a] := by
  induction xs with
  | nil => simp [List.dropWhile, ha]
  | cons x xs ih =>
    by_cases hx : p x
    · simp only [List.cons_append, List.dropWhile_cons_of_pos hx, ih]
    · simp [List.dropWhile_cons_of_neg hx]

theorem pyStrip_ne_of_last_space {a : Char} (ha : pyIsSpace a = true)
    (xs : List Char) : pyStrip (xs ++ [a]) ≠ xs ++ [a] := by
  unfold pyStrip
  rw [dropWhile_append_single_true ha]
  by_cases hxs : xs.dropWhile pyIsSpace = []
  · rw [if_pos hxs]
    simp
  · rw [if_neg hxs]
    intro hcontra
    have hlen : (((xs.dropWhile pyIsSpace ++ [a]).reverse.dropWhile pyIsSpace).reverse).length
        ≤ xs.length := by
      rw [show (xs.dropWhile pyIsSpace ++ [a]).reverse =
        a :: (xs.dropWhile pyIsSpace).reverse by simp]
      rw [List.dropWhile_cons_of_pos ha]
      calc ((xs.dropWhile pyIsSpace).reverse.dropWhile pyIsSpace).reverse.length
          = ((xs.dropWhile pyIsSpace).reverse.dropWhile pyIsSpace).length := by simp
        _ ≤ (xs.dropWhile pyIsSpace).reverse.length :=
            (List.dropWhile_sublist pyIsSpace).length_le
        _ = (xs.dropWhile pyIsSpace).length := by simp
        _ ≤ xs.length := (List.dropWhile_sublist pyIsSpace).length_le
    rw [hcontra] at hlen
    simp at hlen

theorem strip_nopath_msg (xs : List Char) (a : Char) (ha : pyIsSpace a = false) :
    pyStrip ("系统找不到指定的路径: ".data ++ (xs ++ [a])) =
      "系统找不到指定的路径: ".data ++ (xs ++ [a]) := by
  have h := pyStrip_bracket '系' a (by decide) ha
    ("统找不到指定的路径: ".data ++ xs)
  have e : '系' :: (("统找不到指定的路径: ".data ++ xs) ++ [a]) =
      "系统找不到指定的路径: ".data ++ (xs ++ [a]) := by
    show '系' :: (("统找不到指定的路径: ".data ++ xs) ++ [a]) =
      ('系' :: "统找不到指定的路径: ".data) ++ (xs ++ [a])
    simp [List.append_assoc]
  rw [e] at h
  exact h

theorem exec_cmd_cd (env : OsEnv) (cwd : List Char) (payload : List Nat)
    (codeFlag : String) (command : List Char)
    (hdec : utf8Decode payload = some command)
    (hcd : command.take 2 = "cd".data ∧ 2 < command.length) :
    exec_cmd env cwd payload codeFlag =
      (if env.chdirOk cwd (command.drop 3) then
        some ⟨pyStrip ("切换到 ".data ++ env.chdirResolve cwd (command.drop 3) ++
            " 路径下".data), env.chdirResolve cwd (command.drop 3), false⟩
      else
        some ⟨pyStrip ("系统找不到指定的路径: ".data ++ command.drop 3), cwd, false⟩) := by
  simp only [exec_cmd, hdec]
  rw [if_pos hcd]

/-- C4: a `cd <path>` command with a non-empty, whitespace-clean path is
handled without spawning a subprocess: when the directory change succeeds,
the Agent's working directory becomes the resolved absolute path and the
result is the localized success message containing that path; when it
fails, the result is the localized path-not-found message naming the
attempted path and the working directory is unchanged. -/
theorem c4_cd_branch (env : OsEnv) (cwd path : List Char) (codeFlag : String)
    (hsp : pyStrip path = path) (hpn : path ≠ []) :
    (env.chdirOk cwd path = true →
      exec_cmd env cwd (utf8 ("cd ".data ++ path)) codeFlag =
        some ⟨"切换到 ".data ++ env.chdirResolve cwd path ++ " 路径下".data,
          env.chdirResolve cwd path, false⟩) ∧
    (env.chdirOk cwd path = false →
      exec_cmd env cwd (utf8 ("cd ".data ++ path)) codeFlag =
        some ⟨"系统找不到指定的路径: ".data ++ path, cwd, false⟩) := by
  have hlast : pyIsSpace (path.getLast hpn) = false := by
    by_contra hcon
    rw [Bool.not_eq_false] at hcon
    have hne2 := pyStrip_ne_of_last_space hcon path.dropLast
    rw [List.dropLast_append_getLast hpn] at hne2
    exact hne2 hsp
  have hdecode : utf8Decode (utf8 ("cd ".data ++ path)) = some ("cd ".data ++ path) :=
    utf8Decode_utf8 _
  have htake : ("cd ".data ++ path).take 2 = "cd".data := rfl
  have hlen : 2 < ("cd ".data ++ path).length := by
    show 2 < ('c' :: 'd' :: ' ' :: path).length
    simp
  have hdrop : ("cd ".data ++ path).drop 3 = path := rfl
  have hcmd := exec_cmd_cd env cwd (utf8 ("cd ".data ++ path)) codeFlag
    ("cd ".data ++ path) hdecode ⟨htake, hlen⟩
  rw [hdrop] at hcmd
  constructor
  · intro h
    rw [hcmd, if_pos h, strip_chdir_msg]
  · intro h
    rw [hcmd, if_neg (by rw [h]; exact Bool.false_ne_true)]
    rw [show path = path.dropLast ++ [path.getLast hpn] from
      (List.dropLast_append_getLast hpn).symm]
    rw [strip_nopath_msg path.dropLast (path.getLast hpn) hlast]

def envC4 : OsEnv :=
  ⟨fun _ t => t = "/tmp".data, fun _ t => t, fun _ => [], fun _ _ => none⟩

theorem c4_witness :
    (envC4.chdirOk "/".data "/tmp".data = true →
      exec_cmd envC4 "/".data (utf8 ("cd ".data ++ "/tmp".data)) "utf-8" =
        some ⟨"切换到 ".data ++ envC4.chdirResolve "/".data "/tmp".data ++
          " 路径下".data, envC4.chdirResolve "/".data "/tmp".data, false⟩) ∧
    (envC4.chdirOk "/".data "/tmp".data = false →
      exec_cmd envC4 "/".data (utf8 ("cd ".data ++ "/tmp".data)) "utf-8" =
        some ⟨"系统找不到指定的路径: ".data ++ "/tmp".data, "/".data, false⟩) :=
  c4_cd_branch envC4 "/".data "/tmp".data "utf-8" (by decide) (by decide)

theorem strip_success_msg_ne_nil (command : List Char) :
    pyStrip (command ++ " 执行成功".data) ≠ [] := by
  have h := pyStrip_append_ne_nil (a := '功') (by decide) (command ++ " 执行成".data)
  have e : (command ++ " 执行成".data) ++ ['功'] = command ++ " 执行成功".data := by
    show (command ++ " 执行成".data) ++ ['功'] = command ++ (" 执行成".data ++ ['功'])
    simp [List.append_assoc]
  rw [e] at h
  exact h

/-- C6: a non-`cd` command whose subprocess produces empty combined
stdout/stderr makes `exec_cmd` return the localized "executed successfully"
message, which is never the empty string. -/
theorem c6_empty_output (env : OsEnv) (cwd command : List Char) (codeFlag : String)
    (hnotcd : ¬(command.take 2 = "cd".data ∧ 2 < command.length))
    (hout : env.subprocOut command = []) :
    exec_cmd env cwd (utf8 command) codeFlag =
      some ⟨pyStrip (command ++ " 执行成功".data), cwd, true⟩ ∧
    pyStrip (command ++ " 执行成功".data) ≠ [] := by
  constructor
  · rw [exec_cmd_subproc env cwd (utf8 command) codeFlag command
      (utf8Decode_utf8 command) hnotcd]
    rw [if_pos hout]
  · exact strip_success_msg_ne_nil command

def envC6 : OsEnv := ⟨fun _ _ => false, fun _ _ => [], fun _ => [], fun _ _ => none⟩

theorem c6_witness :
    exec_cmd envC6 "/".data (utf8 "true".data) "utf-8" =
      some ⟨pyStrip ("true".data ++ " 执行成功".data), "/".data, true⟩ ∧
    pyStrip ("true".data ++ " 执行成功".data) ≠ [] :=
  c6_empty_output envC6 "/".data "true".data "utf-8" (by decide) (by decide)

/-- C5: for a non-`cd` command with non-empty captured output that is valid
under exactly one of the two candidate encodings, `exec_cmd` returns the
text decoded under the valid encoding (stripped, as the source's last line
does) whichever of the two flags the platform selected first; the first
decode attempt uses the platform-selected flag and at most one retry is
made. -/
theorem c5_encoding_fallback (env : OsEnv) (cwd command : List Char)
    (w : Bool) (s : List Char)
    (hnotcd : ¬(command.take 2 = "cd".data ∧ 2 < command.length))
    (hne : env.subprocOut command ≠ [])
    (hvalid : (env.decodeBytes "gbk" (env.subprocOut command) = some s ∧
        env.decodeBytes "utf-8" (env.subprocOut command) = none) ∨
      (env.decodeBytes "utf-8" (env.subprocOut command) = some s ∧
        env.decodeBytes "gbk" (env.subprocOut command) = none)) :
    exec_cmd env cwd (utf8 command) (platformCodeFlag w) =
      some ⟨pyStrip s, cwd, true⟩ ∧
    (decodeAttempts env.decodeBytes (platformCodeFlag w)
      (env.subprocOut command)).head? = some (platformCodeFlag w) ∧
    (decodeAttempts env.decodeBytes (platformCodeFlag w)
      (env.subprocOut command)).length ≤ 2 := by
  have hfb : decodeFallback env.decodeBytes (platformCodeFlag w)
      (env.subprocOut command) = some s := by
    cases w
    · show decodeFallback env.decodeBytes "utf-8" (env.subprocOut command) = some s
      unfold decodeFallback
      rcases hvalid with ⟨hg, hu⟩ | ⟨hu, hg⟩
      · rw [hu]
        show env.decodeBytes (flipFlag "utf-8") (env.subprocOut command) = some s
        rw [show flipFlag "utf-8" = "gbk" from rfl]
        exact hg
      · rw [hu]
    · show decodeFallback env.decodeBytes "gbk" (env.subprocOut command) = some s
      unfold decodeFallback
      rcases hvalid with ⟨hg, hu⟩ | ⟨hu, hg⟩
      · rw [hg]
      · rw [hg]
        show env.decodeBytes (flipFlag "gbk") (env.subprocOut command) = some s
        rw [show flipFlag "gbk" = "utf-8" from rfl]
        exact hu
  refine ⟨?_, ?_, ?_⟩
  · rw [exec_cmd_subproc env cwd (utf8 command) (platformCodeFlag w) command
      (utf8Decode_utf8 command) hnotcd]
    rw [if_neg hne, hfb]
  · unfold decodeAttempts
    cases h : env.decodeBytes (platformCodeFlag w) (env.subprocOut command) <;> simp
  · unfold decodeAttempts
    cases h : env.decodeBytes (platformCodeFlag w) (env.subprocOut command) <;> simp

def envC5 : OsEnv :=
  ⟨fun _ _ => false, fun _ t => t, fun _ => [255],
    fun enc _ => if enc = "utf-8" then some "ok".data else none⟩

theorem c5_witness :
    exec_cmd envC5 "/".data (utf8 "ls".data) (platformCodeFlag true) =
      some ⟨pyStrip "ok".data, "/".data, true⟩ ∧
    (decodeAttempts envC5.decodeBytes (platformCodeFlag true)
      (envC5.subprocOut "ls".data)).head? = some (platformCodeFlag true) ∧
    (decodeAttempts envC5.decodeBytes (platformCodeFlag true)
      (envC5.subprocOut "ls".data)).length ≤ 2 :=
  c5_encoding_fallback envC5 "/".data "ls".data true "ok".data (by decide)
    (by decide) (Or.inr ⟨by decide, by decide⟩)
